import Mathlib

/-!
Verification of the dg-queue background job queue.

Shallow embedding of the Go sources:
* `src/job.go` — the `Job` model and its lifecycle helpers;
* `src/manager.go` — `processJob` (retry / failed arbitration);
* `src/drivers/memory` — the ephemeral in-memory driver;
* `src/drivers/redis/redis.go` — the durable driver (modelled at the
  job level: list members stand for serialized jobs);
* `src/batch.go` — the batch helper.

Machine integers are modelled as `Int`; `time.Time` values and
`time.Duration` values are modelled as integers (an epoch instant,
respectively a nanosecond count).  `float64` values appearing in
payloads and in JSON are modelled as rationals.
-/

namespace DgQueue

/-- A dynamically typed Go value (`interface\x7b\x7d`) restricted to the
JSON-marshallable universe.  `int` is a Go integer (which marshals to a
JSON number but is never produced by decoding into `interface\x7b\x7d`);
`num` is a Go `float64`, modelled as a rational. -/
inductive GoValue where
  | null : GoValue
  | bool (b : Bool) : GoValue
  | int (n : Int) : GoValue
  | num (q : ℚ) : GoValue
  | str (s : String) : GoValue
  | arr (xs : List GoValue) : GoValue
  | obj (kvs : List (String × GoValue)) : GoValue

/-- The `Job` struct of `src/job.go`.  Timestamps are integers, optional
timestamps are `Option Int`, the `map[string]interface\x7b\x7d` metadata is
`Option` of an association list (`none` is the nil map, `some []` a
non-nil empty map). -/
structure Job where
  id : String
  name : String
  queue : String
  payload : GoValue
  attempts : Int
  maxAttempts : Int
  timeout : Int
  delay : Int
  availableAt : Int
  createdAt : Int
  updatedAt : Int
  startedAt : Option Int
  completedAt : Option Int
  failedAt : Option Int
  error : String
  metadata : Option (List (String × GoValue))

/-- `Job.WithDelay` (src/job.go): sets `Delay` and recomputes
`AvailableAt` from the job's `CreatedAt`. -/
def withDelay (j : Job) (d : Int) : Job :=
  { j with delay := d, availableAt := j.createdAt + d }

/-- `Job.IsAvailable` (src/job.go): the current time is at or past
`AvailableAt`. -/
def isAvailable (now : Int) (j : Job) : Bool :=
  j.availableAt ≤ now

/-- `Job.CanRetry` (src/job.go): `Attempts < MaxAttempts`. -/
def canRetry (j : Job) : Bool :=
  j.attempts < j.maxAttempts

/-- `Job.MarkStarted` (src/job.go): records the start time, bumps
`UpdatedAt` and increments `Attempts`. -/
def markStarted (now : Int) (j : Job) : Job :=
  { j with startedAt := some now, updatedAt := now, attempts := j.attempts + 1 }

/-- `Job.MarkCompleted` (src/job.go). -/
def markCompleted (now : Int) (j : Job) : Job :=
  { j with completedAt := some now, updatedAt := now }

/-- `Job.MarkFailed` (src/job.go) with a non-nil error: records the
failure time, bumps `UpdatedAt` and stores the error message. -/
def markFailed (now : Int) (msg : String) (j : Job) : Job :=
  { j with failedAt := some now, updatedAt := now, error := msg }

/-- The message of `ErrJobTimeout` (src/errors.go). -/
def errJobTimeoutMsg : String := "job timeout"

/-- `Job.GetStatus` (src/job.go). -/
def getStatus (now : Int) (j : Job) : String :=
  if j.completedAt.isSome then "completed"
  else if j.failedAt.isSome then "failed"
  else if j.startedAt.isSome then "processing"
  else if ¬ isAvailable now j then "delayed"
  else "pending"

/-! ### processJob (src/manager.go)

`Manager.processJob` marks the job started, then races the handler
against the per-job deadline.  We model the nondeterministic race result
as an input (`HandlerResult`) and the terminal driver call as an
explicit outcome value.  `startNow` is the time of `MarkStarted`,
`endNow` the time the select fires. -/

/-- The outcome of the handler race inside `processJob`: the handler
returned nil, the handler returned an error, or the timeout context
fired first. -/
inductive HandlerResult where
  | ok : HandlerResult
  | err (msg : String) : HandlerResult
  | timedOut : HandlerResult

/-- The terminal driver call made by `processJob`, with the job value it
passes: `driver.Delete` after completion, `driver.Retry`, or
`driver.Failed`. -/
inductive JobOutcome where
  | completedJob (j : Job) : JobOutcome
  | retried (j : Job) : JobOutcome
  | failedSink (j : Job) : JobOutcome

/-- `Manager.processJob` (src/manager.go, lines 254-319), as a function
of the race result.  On a handler error it calls
`WithDelay(job, RetryDelay * job.Attempts)` before `driver.Retry`; on a
timeout it calls `driver.Retry` directly with no delay update. -/
def processJob (retryDelay startNow endNow : Int) (j : Job) (r : HandlerResult) : JobOutcome :=
  let j0 := markStarted startNow j
  match r with
  | .ok => .completedJob (markCompleted endNow j0)
  | .err msg =>
      let j1 := markFailed endNow msg j0
      if canRetry j1 then .retried (withDelay j1 (retryDelay * j1.attempts))
      else .failedSink j1
  | .timedOut =>
      let j1 := markFailed endNow errJobTimeoutMsg j0
      if canRetry j1 then .retried j1
      else .failedSink j1

/-- The job handed to `driver.Retry`, when the outcome is a retry. -/
def JobOutcome.retriedJob : JobOutcome → Option Job
  | .retried j => some j
  | _ => none

/-- The job handed to `driver.Failed`, when the outcome is terminal
failure. -/
def JobOutcome.failedJob : JobOutcome → Option Job
  | .failedSink j => some j
  | _ => none

/-! ### Error sentinels (src/errors.go) -/

/-- The error sentinels returned by driver operations that the claims
mention: `ErrQueueEmpty` and `ErrJobNotFound`. -/
inductive QErr where
  | queueEmpty : QErr
  | jobNotFound : QErr
deriving DecidableEq

/-! ### Association-list model of Go maps -/

/-- Lookup in a Go map modelled as an association list. -/
def alookup (l : List (String × α)) (k : String) : Option α :=
  (l.find? (fun p => p.1 = k)).map Prod.snd

/-- Go map assignment `m[k] = v`: replace the binding if present, else
add it. -/
def aset : List (String × α) → String → α → List (String × α)
  | [], k, v => [(k, v)]
  | (k', v') :: rest, k, v =>
      if k' = k then (k, v) :: rest else (k', v') :: aset rest k v

/-- Go `delete(m, k)`: drop the binding for `k` (keys are unique). -/
def aremove : List (String × α) → String → List (String × α)
  | [], _ => []
  | (k', v) :: rest, k =>
      if k' = k then rest else (k', v) :: aremove rest k

/-! ### Ephemeral (memory) driver (src/drivers/memory) -/

/-- The memory driver state: per-queue ordered job lists and the failed
sink keyed by job id. -/
structure MemDriver where
  queues : List (String × List Job)
  failed : List (String × Job)

/-- The empty memory driver, as built by `NewDriver`. -/
def memEmpty : MemDriver := ⟨[], []⟩

/-- Memory `Push`: append the job to the tail of its queue's list
(creating the list when absent). -/
def memPush (st : MemDriver) (j : Job) : MemDriver :=
  { st with queues := aset st.queues j.queue (((alookup st.queues j.queue).getD []) ++ [j]) }

/-- The scan inside memory `Pop`: find the first available job and
remove it by index splice, keeping the rest in order. -/
def popFirst (now : Int) : List Job → Option (Job × List Job)
  | [] => none
  | j :: rest =>
      if isAvailable now j then some (j, rest)
      else match popFirst now rest with
           | none => none
           | some (k, rest') => some (k, j :: rest')

/-- Memory `Pop`: `ErrQueueEmpty` when the queue is absent or empty,
else remove and return the first available job, else `ErrQueueEmpty`
when all jobs are delayed. -/
def memPop (now : Int) (st : MemDriver) (q : String) : Except QErr (Job × MemDriver) :=
  match alookup st.queues q with
  | none => .error .queueEmpty
  | some jobs =>
      if jobs.isEmpty then .error .queueEmpty
      else match popFirst now jobs with
           | none => .error .queueEmpty
           | some (j, rest) => .ok (j, { st with queues := aset st.queues q rest })

/-- The inner scan of memory `Delete` over one queue: remove the first
job with the given id, or report that none was found. -/
def removeById (jid : String) : List Job → Option (List Job)
  | [] => none
  | j :: rest =>
      if j.id = jid then some rest
      else (removeById jid rest).map (j :: ·)

/-- The scan of memory `Delete` over all queues (modelled in list
order; Go map iteration order is unspecified). -/
def deleteFromQueues (jid : String) : List (String × List Job) → Option (List (String × List Job))
  | [] => none
  | (q, jobs) :: rest =>
      match removeById jid jobs with
      | some jobs' => some ((q, jobs') :: rest)
      | none => (deleteFromQueues jid rest).map ((q, jobs) :: ·)

/-- Memory `Delete`: search all queues, then the failed sink; remove
the first match, or return `ErrJobNotFound`. -/
def memDelete (st : MemDriver) (jid : String) : Except QErr MemDriver :=
  match deleteFromQueues jid st.queues with
  | some qs' => .ok { st with queues := qs' }
  | none =>
      if (alookup st.failed jid).isSome then
        .ok { st with failed := aremove st.failed jid }
      else .error .jobNotFound

/-- Memory `Retry`: clear `FailedAt` and `Error` on the job, then append
it to its queue's list, exactly like `Push`. -/
def memRetry (st : MemDriver) (j : Job) : MemDriver :=
  memPush st { j with failedAt := none, error := "" }

/-- Memory `Failed`: store the job into the failed sink under its id. -/
def memFailed (st : MemDriver) (j : Job) : MemDriver :=
  { st with failed := aset st.failed j.id j }

/-! ### Durable (redis) driver (src/drivers/redis/redis.go)

List and sorted-set members are serialized jobs in the source; the
model stores the job values themselves.  Time instants are modelled on
one integer scale, so the sorted-set score (`AvailableAt.Unix()`) is
modelled as `availableAt`. -/

/-- The redis driver state: per-queue active lists, per-queue delayed
sorted sets of (score, member) pairs, and the failed list. -/
structure RedisState where
  queues : List (String × List Job)
  delayed : List (String × List (Int × Job))
  failed : List Job

/-- A redis state with no keys. -/
def redisEmpty : RedisState := ⟨[], [], []⟩

/-- Redis `Push`: if the job has a positive delay or is not yet
available, `ZAdd` it to the delayed set with score `AvailableAt`;
otherwise `RPush` it to the tail of the active list.  The job value is
serialized as-is: no field is modified. -/
def redisPush (now : Int) (st : RedisState) (j : Job) : RedisState :=
  if j.delay > 0 || !(isAvailable now j) then
    let entries := ((alookup st.delayed j.queue).getD []) ++ [(j.availableAt, j)]
    { st with delayed := aset st.delayed j.queue entries }
  else
    let entries := ((alookup st.queues j.queue).getD []) ++ [j]
    { st with queues := aset st.queues j.queue entries }

/-- Redis `Delete`: a no-op that always returns nil. -/
def redisDelete (st : RedisState) (_jid : String) : Except QErr RedisState :=
  .ok st

/-- Redis `Retry`: exactly `Push` of the unmodified job. -/
def redisRetry (now : Int) (st : RedisState) (j : Job) : RedisState :=
  redisPush now st j

/-- Redis `Failed`: `RPush` the serialized job onto the failed list. -/
def redisFailed (st : RedisState) (j : Job) : RedisState :=
  { st with failed := st.failed ++ [j] }

/-! ### Lifecycle state machine (C4)

Attempt counts observable through the manager-driven lifecycle: a job
is created with `Attempts = 0` and sits in the driver; the dispatcher
pops it and a worker runs `processJob`, whose first action is
`MarkStarted` (increment); on a handler error or timeout it is retried
only when `CanRetry`, i.e. `Attempts < MaxAttempts`, else it is moved
to the failed sink; the dispatcher may also move an unroutable pending
job straight to the failed sink. -/

/-- An observation point of a job's lifecycle, carrying the attempts
counter: waiting in the driver, just started by a worker, completed, or
parked in the failed sink. -/
inductive LState where
  | pending (attempts : Int) : LState
  | running (attempts : Int) : LState
  | completedSt (attempts : Int) : LState
  | deadSt (attempts : Int) : LState

/-- The attempts counter at an observation point. -/
def LState.attemptsOf : LState → Int
  | .pending a => a
  | .running a => a
  | .completedSt a => a
  | .deadSt a => a

/-- One lifecycle transition for a job with the given `MaxAttempts`:
`start` is `MarkStarted` (src/job.go), `retryStep`/`failStep` are the
`CanRetry` arbitration of `processJob` (src/manager.go), and
`routeFail` is the dispatcher moving an unroutable job to the failed
sink. -/
inductive LStep (maxA : Int) : LState → LState → Prop
  | start (a : Int) : LStep maxA (.pending a) (.running (a + 1))
  | finish (a : Int) : LStep maxA (.running a) (.completedSt a)
  | retryStep (a : Int) : a < maxA → LStep maxA (.running a) (.pending a)
  | failStep (a : Int) : ¬ a < maxA → LStep maxA (.running a) (.deadSt a)
  | routeFail (a : Int) : LStep maxA (.pending a) (.deadSt a)

/-- Observation points reachable from a freshly created job
(`Attempts = 0`, pending in the driver). -/
def LReach (maxA : Int) (s : LState) : Prop :=
  Relation.ReflTransGen (LStep maxA) (.pending 0) s

/-! ### JSON wire format (src/job.go `Marshal` / `UnmarshalJob`)

JSON numbers are rationals; `time.Time` fields are modelled as their
integer instant (their RFC3339 text round-trips injectively, which is
what the model keeps).  Decoding a JSON number into a Go `interface\x7b\x7d`
produces a `float64`, never an `int`; decoding an object produces a
`map[string]interface\x7b\x7d`; `encoding/json` marshals map keys in sorted
order. -/

/-- A JSON document. -/
inductive JValue where
  | null : JValue
  | bool (b : Bool) : JValue
  | num (q : ℚ) : JValue
  | str (s : String) : JValue
  | arr (xs : List JValue) : JValue
  | obj (kvs : List (String × JValue)) : JValue

/-- Key order used by `encoding/json` when marshalling a map. -/
def keyLe (a b : String × JValue) : Prop := a.1 ≤ b.1

instance : DecidableRel keyLe := fun a b => inferInstanceAs (Decidable (a.1 ≤ b.1))

mutual
/-- `json.Marshal` on a dynamically typed Go value: Go ints and floats
both become JSON numbers; map keys are marshalled in sorted order. -/
def marshalValue : GoValue → JValue
  | .null => .null
  | .bool b => .bool b
  | .int n => .num (n : ℚ)
  | .num q => .num q
  | .str s => .str s
  | .arr xs => .arr (marshalValueList xs)
  | .obj kvs => .obj ((marshalValuePairs kvs).insertionSort keyLe)

/-- `json.Marshal` elementwise on a Go slice. -/
def marshalValueList : List GoValue → List JValue
  | [] => []
  | x :: xs => marshalValue x :: marshalValueList xs

/-- `json.Marshal` on the entries of a Go map (before key sorting). -/
def marshalValuePairs : List (String × GoValue) → List (String × JValue)
  | [] => []
  | p :: ps => (p.1, marshalValue p.2) :: marshalValuePairs ps
end

mutual
/-- `json.Unmarshal` into an `interface\x7b\x7d`: numbers decode as
`float64`, objects as `map[string]interface\x7b\x7d`. -/
def unmarshalValue : JValue → GoValue
  | .null => .null
  | .bool b => .bool b
  | .num q => .num q
  | .str s => .str s
  | .arr xs => .arr (unmarshalValueList xs)
  | .obj kvs => .obj (unmarshalValuePairs kvs)

/-- `json.Unmarshal` elementwise into a slice of `interface\x7b\x7d`. -/
def unmarshalValueList : List JValue → List GoValue
  | [] => []
  | x :: xs => unmarshalValue x :: unmarshalValueList xs

/-- `json.Unmarshal` into the entries of a `map[string]interface\x7b\x7d`. -/
def unmarshalValuePairs : List (String × JValue) → List (String × GoValue)
  | [] => []
  | p :: ps => (p.1, unmarshalValue p.2) :: unmarshalValuePairs ps
end

/-- Go values that lie in the image of JSON decoding: no Go `int`
anywhere, and every map canonical (keys strictly sorted, hence
distinct).  These are exactly the values `json.Unmarshal` can
produce into an `interface\x7b\x7d`. -/
inductive Generic : GoValue → Prop
  | null : Generic .null
  | bool (b : Bool) : Generic (.bool b)
  | num (q : ℚ) : Generic (.num q)
  | str (s : String) : Generic (.str s)
  | arr (xs : List GoValue) : (∀ x ∈ xs, Generic x) → Generic (.arr xs)
  | obj (kvs : List (String × GoValue)) :
      List.Chain' (fun a b : String × GoValue => a.1 < b.1) kvs →
      (∀ p ∈ kvs, Generic p.2) → Generic (.obj kvs)

/-- Marshalled optional `time.Time` field: omitted when nil
(`omitempty`), else the timestamp. -/
def optTimeField (k : String) : Option Int → List (String × JValue)
  | none => []
  | some t => [(k, .num (t : ℚ))]

/-- The JSON object entries produced by `Job.Marshal` (src/job.go):
struct fields in declaration order under their snake_case tags; the
three optional timestamps, `error` and `metadata` carry `omitempty`. -/
def marshalFields (j : Job) : List (String × JValue) :=
  [("id", .str j.id), ("name", .str j.name), ("queue", .str j.queue),
   ("payload", marshalValue j.payload),
   ("attempts", .num (j.attempts : ℚ)), ("max_attempts", .num (j.maxAttempts : ℚ)),
   ("timeout", .num (j.timeout : ℚ)), ("delay", .num (j.delay : ℚ)),
   ("available_at", .num (j.availableAt : ℚ)), ("created_at", .num (j.createdAt : ℚ)),
   ("updated_at", .num (j.updatedAt : ℚ))]
  ++ optTimeField "started_at" j.startedAt
  ++ optTimeField "completed_at" j.completedAt
  ++ optTimeField "failed_at" j.failedAt
  ++ (if j.error = "" then [] else [("error", .str j.error)])
  ++ (match j.metadata with
      | none => []
      | some kvs =>
          if kvs.isEmpty then []
          else [("metadata", marshalValue (.obj kvs))])

/-- `Job.Marshal` (src/job.go). -/
def marshalJob (j : Job) : JValue := .obj (marshalFields j)

/-- Field lookup by JSON key. -/
def jlookup (kvs : List (String × JValue)) (k : String) : Option JValue :=
  (kvs.find? (fun p => p.1 = k)).map Prod.snd

/-- Decode a string field: a missing key leaves the zero value `""`;
a non-string value is a type error. -/
def jgetStr (kvs : List (String × JValue)) (k : String) : Option String :=
  match jlookup kvs k with
  | none => some ""
  | some (.str s) => some s
  | some _ => none

/-- Decode a JSON number into a Go integer type: it must be an
integer-valued number. -/
def jnumAsInt : JValue → Option Int
  | .num q => if q.den = 1 then some q.num else none
  | _ => none

/-- Decode an integer field (`int`, `time.Duration`, or a modelled
`time.Time`): missing keys leave the zero value. -/
def jgetInt (kvs : List (String × JValue)) (k : String) : Option Int :=
  match jlookup kvs k with
  | none => some 0
  | some v => jnumAsInt v

/-- Decode an optional `*time.Time` field: missing or null gives nil. -/
def jgetOptTime (kvs : List (String × JValue)) (k : String) : Option (Option Int) :=
  match jlookup kvs k with
  | none => some none
  | some .null => some none
  | some v => (jnumAsInt v).map some

/-- Decode the `interface\x7b\x7d` payload: a missing key leaves nil. -/
def jgetPayload (kvs : List (String × JValue)) (k : String) : GoValue :=
  match jlookup kvs k with
  | none => .null
  | some v => unmarshalValue v

/-- Decode the `map[string]interface\x7b\x7d` metadata: missing or null
gives the nil map. -/
def jgetMeta (kvs : List (String × JValue)) (k : String) :
    Option (Option (List (String × GoValue))) :=
  match jlookup kvs k with
  | none => some none
  | some .null => some none
  | some (.obj l) => some (some (unmarshalValuePairs l))
  | some _ => none

/-- `UnmarshalJob` (src/job.go): decode each tagged field of the JSON
object, erring on any type mismatch. -/
def unmarshalJob : JValue → Option Job
  | .obj kvs => do
      let id ← jgetStr kvs "id"
      let nm ← jgetStr kvs "name"
      let qn ← jgetStr kvs "queue"
      let att ← jgetInt kvs "attempts"
      let maxAtt ← jgetInt kvs "max_attempts"
      let tmo ← jgetInt kvs "timeout"
      let dly ← jgetInt kvs "delay"
      let avail ← jgetInt kvs "available_at"
      let created ← jgetInt kvs "created_at"
      let updated ← jgetInt kvs "updated_at"
      let started ← jgetOptTime kvs "started_at"
      let completed ← jgetOptTime kvs "completed_at"
      let failedT ← jgetOptTime kvs "failed_at"
      let errMsg ← jgetStr kvs "error"
      let meta ← jgetMeta kvs "metadata"
      some { id := id, name := nm, queue := qn,
             payload := jgetPayload kvs "payload",
             attempts := att, maxAttempts := maxAtt, timeout := tmo,
             delay := dly, availableAt := avail, createdAt := created,
             updatedAt := updated, startedAt := started,
             completedAt := completed, failedAt := failedT,
             error := errMsg, metadata := meta }
  | _ => none

/-! ### Batch helper (src/batch.go) -/

/-- The status handle of a batch operation; `Progress` reads only
`Total` and `Processed`. -/
structure BatchStatus where
  total : Int
  processed : Int
  failedCount : Int

/-- `BatchStatus.Progress` (src/batch.go): `0` when `Total` is zero,
else `float64(Processed) / float64(Total) * 100` (modelled over the
rationals). -/
def progress (bs : BatchStatus) : ℚ :=
  if bs.total = 0 then 0 else (bs.processed : ℚ) / (bs.total : ℚ) * 100

/-- The error message `DispatchBatch` returns for an empty item list. -/
def batchEmptyErrMsg : String := "items cannot be empty"

/-- `Batch.DispatchBatch` at the dispatch level: an empty item list is
an error with no status handle; otherwise a status handle is returned
and the producer task dispatches each item in order.  The `ok` value
records the items that get dispatched. -/
def dispatchBatch (items : List GoValue) : Except String (List GoValue) :=
  if items.isEmpty then .error batchEmptyErrMsg else .ok items

/-- The mapping loop of `Batch.Map`: apply the mapper to each item in
order; on a mapper error the `OnError` callback fires (collected in the
returned log) and, unless `ContinueOnError` is set, the loop aborts
with that error.  Successfully mapped items are collected in order. -/
def mapItems (mapper : GoValue → Except String GoValue) (continueOnError : Bool) :
    List GoValue → Except String (List GoValue) × List (GoValue × String)
  | [] => (.ok [], [])
  | item :: rest =>
      match mapper item with
      | .error e =>
          if continueOnError then
            let (r, log) := mapItems mapper continueOnError rest
            (r, (item, e) :: log)
          else (.error e, [(item, e)])
      | .ok m =>
          let (r, log) := mapItems mapper continueOnError rest
          (r.map (m :: ·), log)

/-- `Batch.Map` (src/batch.go): map the items, then hand the mapped
list to `DispatchBatch`.  Returns the `OnError` invocation log together
with the result. -/
def batchMap (items : List GoValue) (mapper : GoValue → Except String GoValue)
    (continueOnError : Bool) :
    List (GoValue × String) × Except String (List GoValue) :=
  match mapItems mapper continueOnError items with
  | (.error e, log) => (log, .error e)
  | (.ok mapped, log) => (log, dispatchBatch mapped)

/-! ### Auxiliary definitions for the statements -/

/-- Draining the ready jobs of one queue by iterating the `Pop` scan;
`fuel` bounds the iteration (each successful scan removes one element,
so `l.length` rounds always suffice). -/
def popAllListFuel (now : Int) : Nat → List Job → List Job
  | 0, _ => []
  | fuel + 1, l =>
      match popFirst now l with
      | none => []
      | some (j, rest) => j :: popAllListFuel now fuel rest

/-- The sequence of jobs successive `Pop` calls return from a queue
list, at a fixed instant, until the queue-empty signal. -/
def popAllList (now : Int) (l : List Job) : List Job :=
  popAllListFuel now l.length l

/-- Number of jobs with the given id in one queue list. -/
def countById (jid : String) (l : List Job) : Nat :=
  l.countP (fun j => j.id = jid)

/-- Number of jobs with the given id across all queues. -/
def countQ (jid : String) (qs : List (String × List Job)) : Nat :=
  (qs.map (fun p => countById jid p.2)).sum

/-- Number of bindings for the given id in the failed sink. -/
def countKey (k : String) (l : List (String × Job)) : Nat :=
  l.countP (fun p => p.1 = k)

/-- Total number of jobs with the given id held by the memory driver. -/
def memCount (jid : String) (st : MemDriver) : Nat :=
  countQ jid st.queues + countKey jid st.failed

/-- Whether a driver call returned nil (no error). -/
def isOkE : Except QErr α → Bool
  | .ok _ => true
  | .error _ => false

/-- The job A sits strictly before the job B somewhere in a list. -/
def InOrder (A B : Job) (l : List Job) : Prop :=
  ∃ m1 m2 m3, l = m1 ++ A :: m2 ++ B :: m3

/-- Metadata for which the wire codec is lossless: the nil map, or a
non-empty map in canonical decoded form. -/
def MetaOk : Option (List (String × GoValue)) → Prop
  | none => True
  | some kvs => kvs ≠ [] ∧
      List.Chain' (fun a b : String × GoValue => a.1 < b.1) kvs ∧
      ∀ p ∈ kvs, Generic p.2

/-! ### Concrete jobs and states for counterexamples and witnesses -/

/-- A plain job, fresh from creation: no attempts, available at once. -/
def baseJob : Job :=
  { id := "j1", name := "work", queue := "default", payload := .null,
    attempts := 0, maxAttempts := 3, timeout := 30, delay := 0,
    availableAt := 0, createdAt := 0, updatedAt := 0,
    startedAt := none, completedAt := none, failedAt := none,
    error := "", metadata := none }

/-- A job that has already been marked failed. -/
def failedJob3 : Job := { baseJob with failedAt := some 7, error := "boom" }

/-- A job created like `NewJob` does it: with a non-nil empty metadata
map. -/
def cxJob8 : Job := { baseJob with metadata := some [] }

/-- A delayed job, not available before instant 50. -/
def delayedJob : Job :=
  { baseJob with id := "jD", delay := 50, availableAt := 50 }

/-- A second plain job. -/
def jobB : Job := { baseJob with id := "j2" }

/-- A memory driver holding exactly `baseJob` on its queue. -/
def st5 : MemDriver := memPush memEmpty baseJob

/-- The inductive invariant behind `attempts <= max_attempts`: a
pending job has been retried only while strictly under the bound. -/
def LInv (maxA : Int) : LState → Prop
  | .pending a => 0 ≤ a ∧ a < maxA
  | .running a => 1 ≤ a ∧ a ≤ maxA
  | .completedSt a => a ≤ maxA
  | .deadSt a => a ≤ maxA

/-! ## Theorems -/

/-! ### C1 — handler-error retry backoff -/

theorem canRetry_markFailed_markStarted (startNow endNow : Int) (j : Job) (msg : String) :
    canRetry (markFailed endNow msg (markStarted startNow j)) =
      decide (j.attempts + 1 < j.maxAttempts) := by
  simp [canRetry, markFailed, markStarted]

/-- C1 (counterexample): the claim says the retry path sets
`available_at = now + retry_delay * attempts` with `now` the failure
time.  For a job created at instant 0 that fails at instant 105 with
`retry_delay = 10`, the code hands `driver.Retry` a job with
`available_at = 10` (computed from `created_at`), not `115`. -/
theorem c1_counterexample :
    (processJob 10 100 105 baseJob (.err "boom")).retriedJob.map Job.availableAt = some 10 ∧
    (processJob 10 100 105 baseJob (.err "boom")).retriedJob.map Job.attempts = some 1 ∧
    (10 : Int) ≠ 105 + 10 * 1 := by
  refine ⟨rfl, rfl, by decide⟩

/-- C1 (amended): on a handler error with `attempts < max_attempts`
(the already-incremented value), `processJob` hands `driver.Retry` a
job whose `available_at` is `created_at + retry_delay * attempts` and
whose `delay` is `retry_delay * attempts` — `WithDelay` computes from
the job's creation time, not the failure time. -/
theorem c1_retry_backoff (retryDelay startNow endNow : Int) (j : Job) (msg : String)
    (h : j.attempts + 1 < j.maxAttempts) :
    ∃ jr, (processJob retryDelay startNow endNow j (.err msg)).retriedJob = some jr ∧
      jr.attempts = j.attempts + 1 ∧
      jr.availableAt = j.createdAt + retryDelay * (j.attempts + 1) ∧
      jr.delay = retryDelay * (j.attempts + 1) := by
  have hrun : (processJob retryDelay startNow endNow j (.err msg)).retriedJob =
      some (withDelay (markFailed endNow msg (markStarted startNow j))
        (retryDelay * (j.attempts + 1))) := by
    simp [processJob, JobOutcome.retriedJob, canRetry, markFailed, markStarted, withDelay, h]
  exact ⟨_, hrun, by simp [withDelay, markFailed, markStarted],
    by simp [withDelay, markFailed, markStarted],
    by simp [withDelay, markFailed, markStarted]⟩

/-- C1 (witness): the amended backoff theorem at `baseJob`. -/
theorem c1_witness :
    (0 : Int) + 1 < 3 ∧
    ∃ jr, (processJob 10 100 105 baseJob (.err "boom")).retriedJob = some jr ∧
      jr.attempts = 0 + 1 ∧
      jr.availableAt = 0 + 10 * (0 + 1) ∧
      jr.delay = 10 * (0 + 1) :=
  ⟨by decide, c1_retry_backoff 10 100 105 baseJob "boom" (by decide)⟩

/-! ### C2 — timeout arbitration -/

/-- C2 (counterexample): the claim says the timeout path, like the
handler-error path, sets `available_at = now + retry_delay * attempts`.
For a job with `available_at = 0` timing out at instant 105 with
`retry_delay = 10`, the code hands `driver.Retry` a job whose
`available_at` is still `0`: no delay is applied at all. -/
theorem c2_counterexample :
    (processJob 10 100 105 baseJob .timedOut).retriedJob.map Job.availableAt = some 0 ∧
    (processJob 10 100 105 baseJob .timedOut).retriedJob.map Job.attempts = some 1 ∧
    (0 : Int) ≠ 105 + 10 * 1 := by
  refine ⟨rfl, rfl, by decide⟩

/-- C2 (amended): when the deadline fires first, `processJob` marks the
job failed with the dedicated timeout error kind (`"job timeout"`) and
applies the same `CanRetry` arbitration as a handler error — but with
no backoff: the retried job keeps its `available_at` and `delay`
unchanged. -/
theorem c2_timeout_arbitration (retryDelay startNow endNow : Int) (j : Job) :
    (j.attempts + 1 < j.maxAttempts →
      ∃ jr, (processJob retryDelay startNow endNow j .timedOut).retriedJob = some jr ∧
        jr.error = errJobTimeoutMsg ∧ jr.failedAt = some endNow ∧
        jr.availableAt = j.availableAt ∧ jr.delay = j.delay ∧
        jr.attempts = j.attempts + 1) ∧
    (¬ (j.attempts + 1 < j.maxAttempts) →
      ∃ jf, (processJob retryDelay startNow endNow j .timedOut).failedJob = some jf ∧
        jf.error = errJobTimeoutMsg ∧ jf.failedAt = some endNow ∧
        jf.attempts = j.attempts + 1) := by
  constructor
  · intro h
    have hrun : (processJob retryDelay startNow endNow j .timedOut).retriedJob =
        some (markFailed endNow errJobTimeoutMsg (markStarted startNow j)) := by
      simp [processJob, JobOutcome.retriedJob, canRetry, markFailed, markStarted, h]
    exact ⟨_, hrun, by simp [markFailed, markStarted],
      by simp [markFailed, markStarted], by simp [markFailed, markStarted],
      by simp [markFailed, markStarted], by simp [markFailed, markStarted]⟩
  · intro h
    have hrun : (processJob retryDelay startNow endNow j .timedOut).failedJob =
        some (markFailed endNow errJobTimeoutMsg (markStarted startNow j)) := by
      simp [processJob, JobOutcome.failedJob, canRetry, markFailed, markStarted, h]
    exact ⟨_, hrun, by simp [markFailed, markStarted],
      by simp [markFailed, markStarted], by simp [markFailed, markStarted]⟩

/-- C2 (witness): the amended timeout theorem at `baseJob` (retry
branch) and at a spent job (terminal branch). -/
theorem c2_witness :
    ((0 : Int) + 1 < 3 ∧
      ∃ jr, (processJob 10 100 105 baseJob .timedOut).retriedJob = some jr ∧
        jr.error = errJobTimeoutMsg ∧ jr.failedAt = some 105 ∧
        jr.availableAt = baseJob.availableAt ∧ jr.delay = baseJob.delay ∧
        jr.attempts = 0 + 1) ∧
    (¬ ((2 : Int) + 1 < 3) ∧
      ∃ jf, (processJob 10 100 105 { baseJob with attempts := 2 } .timedOut).failedJob = some jf ∧
        jf.error = errJobTimeoutMsg ∧ jf.failedAt = some 105 ∧
        jf.attempts = 2 + 1) :=
  ⟨⟨by decide, (c2_timeout_arbitration 10 100 105 baseJob).1 (by decide)⟩,
   ⟨by decide, (c2_timeout_arbitration 10 100 105 { baseJob with attempts := 2 }).2 (by decide)⟩⟩

/-! ### C9 — Batch.Map with an all-failing mapper -/

theorem mapItems_allFail (mapper : GoValue → Except String GoValue) :
    ∀ items : List GoValue, (∀ i ∈ items, ∃ e, mapper i = .error e) →
    (mapItems mapper true items).1 = .ok [] ∧
    (mapItems mapper true items).2.map Prod.fst = items := by
  intro items
  induction items with
  | nil => intro _; exact ⟨rfl, rfl⟩
  | cons i rest ih =>
      intro hfail
      obtain ⟨e, he⟩ := hfail i (List.mem_cons_self i rest)
      have hrest := ih (fun x hx => hfail x (List.mem_cons_of_mem i hx))
      simp only [mapItems, he]
      obtain ⟨h1, h2⟩ := hrest
      constructor
      · simp [h1]
      · simp [h2]

/-- C9: with `continue_on_error` set and a mapper failing on every item
of a non-empty list, `Batch.Map` fires `on_error` once per item, in
order, and then returns the empty-items error (`"items cannot be
empty"`) with no status handle — nothing is dispatched. -/
theorem c9_map_all_errors (items : List GoValue)
    (mapper : GoValue → Except String GoValue)
    (_hne : items ≠ [])
    (hfail : ∀ i ∈ items, ∃ e, mapper i = .error e) :
    (batchMap items mapper true).1.map Prod.fst = items ∧
    (batchMap items mapper true).2 = .error batchEmptyErrMsg := by
  obtain ⟨h1, h2⟩ := mapItems_allFail mapper items hfail
  unfold batchMap
  rcases hm : mapItems mapper true items with ⟨r, log⟩
  rw [hm] at h1 h2
  simp only at h1 h2
  subst h1
  simp [dispatchBatch, h2]

/-- C9 (witness): a single-item list with a constantly failing mapper. -/
theorem c9_witness :
    ([GoValue.null] ≠ [] ∧ (∀ i ∈ [GoValue.null], ∃ e, (fun _ => Except.error "x" : GoValue → Except String GoValue) i = .error e)) ∧
    (batchMap [GoValue.null] (fun _ => .error "x") true).1.map Prod.fst = [GoValue.null] ∧
    (batchMap [GoValue.null] (fun _ => .error "x") true).2 = .error batchEmptyErrMsg :=
  ⟨⟨List.cons_ne_nil _ _, fun _ _ => ⟨"x", rfl⟩⟩,
   c9_map_all_errors [GoValue.null] (fun _ => .error "x")
     (List.cons_ne_nil _ _) (fun _ _ => ⟨"x", rfl⟩)⟩

/-! ### C10 — Progress never divides by zero -/

/-- C10: `BatchStatus.Progress` returns `0` when `Total` is zero and
`Processed / Total * 100` otherwise, so it never divides by zero. -/
theorem c10_progress (bs : BatchStatus) :
    (bs.total = 0 → progress bs = 0) ∧
    (bs.total ≠ 0 → progress bs = (bs.processed : ℚ) / (bs.total : ℚ) * 100) := by
  constructor <;> intro h <;> simp [progress, h]

/-- C10 (witness): `Progress` on a zero-total status and on a 2-of-4
status. -/
theorem c10_witness :
    progress ⟨0, 5, 0⟩ = 0 ∧
    progress ⟨4, 2, 0⟩ = ((⟨4, 2, 0⟩ : BatchStatus).processed : ℚ) / ((⟨4, 2, 0⟩ : BatchStatus).total : ℚ) * 100 :=
  ⟨(c10_progress ⟨0, 5, 0⟩).1 rfl, (c10_progress ⟨4, 2, 0⟩).2 (by decide)⟩

/-! ### C4 — attempts <= max_attempts at all observation points -/

/-- C4 (counterexample): with a configured `max_attempts` of `0`, the
very first `MarkStarted` already drives the counter to `1 > 0`, an
observable violation. -/
theorem c4_counterexample :
    LReach 0 (.running 1) ∧ ¬ ((LState.running 1).attemptsOf ≤ (0 : Int)) :=
  ⟨Relation.ReflTransGen.single (LStep.start 0), by decide⟩

/-- C4 (amended): for every configured `max_attempts ≥ 1`, every
observation point of the manager-driven lifecycle satisfies
`attempts ≤ max_attempts`: the first execution pushes the counter to
`1`, and re-execution only happens after a retry, which `CanRetry`
guards by `attempts < max_attempts`. -/
theorem c4_attempts_le_max (maxA : Int) (h1 : 1 ≤ maxA) (s : LState)
    (hs : LReach maxA s) : s.attemptsOf ≤ maxA := by
  have key : LInv maxA s := by
    induction hs with
    | refl => exact ⟨le_refl 0, by omega⟩
    | tail _ hstep ih =>
        cases hstep with
        | start a => simp only [LInv] at ih ⊢; omega
        | finish a => simp only [LInv] at ih ⊢; omega
        | retryStep a ha => simp only [LInv] at ih ⊢; omega
        | failStep a ha => simp only [LInv] at ih ⊢; omega
        | routeFail a => simp only [LInv] at ih ⊢; omega
  cases s with
  | pending a => exact le_of_lt key.2
  | running a => exact key.2
  | completedSt a => exact key
  | deadSt a => exact key

/-- C4 (witness): the amended invariant theorem applied to a run with
`max_attempts = 3` that started once. -/
theorem c4_witness :
    (1 : Int) ≤ 3 ∧ (LState.running 1).attemptsOf ≤ (3 : Int) :=
  ⟨by decide,
   c4_attempts_le_max 3 (by decide) (.running 1)
     (Relation.ReflTransGen.single (LStep.start 0))⟩

/-! ### Pop-scan lemmas (C6, C7) -/

theorem popFirst_eq_none (now : Int) : ∀ l : List Job,
    popFirst now l = none ↔ ∀ j ∈ l, isAvailable now j = false := by
  intro l
  induction l with
  | nil => simp [popFirst]
  | cons x xs ih =>
      by_cases hx : isAvailable now x = true
      · simp [popFirst, hx]
      · have hxf : isAvailable now x = false := by simpa using hx
        cases hrest : popFirst now xs with
        | none =>
            have hall := ih.mp hrest
            constructor
            · intro _ j hj
              rcases List.mem_cons.mp hj with h | h
              · subst h; exact hxf
              · exact hall j h
            · intro _
              simp [popFirst, hxf, hrest]
        | some pr =>
            obtain ⟨k, rest'⟩ := pr
            have hne := ih.not.mp (by simp [hrest])
            constructor
            · intro h
              rw [popFirst, if_neg hx, hrest] at h
              cases h
            · intro hall
              exact absurd (fun j hj => hall j (List.mem_cons_of_mem x hj)) hne

theorem popFirst_spec (now : Int) : ∀ {l : List Job} {j : Job} {rest : List Job},
    popFirst now l = some (j, rest) →
    isAvailable now j = true ∧
    l.filter (fun x => isAvailable now x) = j :: rest.filter (fun x => isAvailable now x) ∧
    rest.length + 1 = l.length := by
  intro l
  induction l with
  | nil => intro j rest h; simp [popFirst] at h
  | cons x xs ih =>
      intro j rest h
      by_cases hx : isAvailable now x = true
      · rw [popFirst, if_pos hx] at h
        obtain ⟨h1, h2⟩ := Prod.mk.injEq .. ▸ Option.some.injEq .. ▸ h
        subst h1; subst h2
        exact ⟨hx, by simp [List.filter_cons, hx], by simp⟩
      · have hxf : isAvailable now x = false := by simpa using hx
        rw [popFirst, if_neg hx] at h
        cases hrest2 : popFirst now xs with
        | none => rw [hrest2] at h; cases h
        | some pr =>
            obtain ⟨k, rest'⟩ := pr
            rw [hrest2] at h
            obtain ⟨h1, h2⟩ := Prod.mk.injEq .. ▸ Option.some.injEq .. ▸ h
            subst h1
            obtain ⟨hav, hfil, hlen⟩ := ih hrest2
            subst h2
            refine ⟨hav, ?_, ?_⟩
            · simp [List.filter_cons, hxf, hfil]
            · simp only [List.length_cons] at hlen ⊢; omega

theorem popAllListFuel_filter (now : Int) :
    ∀ (fuel : Nat) (l : List Job), l.length ≤ fuel →
      popAllListFuel now fuel l = l.filter (fun j => isAvailable now j) := by
  intro fuel
  induction fuel with
  | zero =>
      intro l hl
      have hnil : l = [] := List.eq_nil_of_length_eq_zero (by omega)
      subst hnil; rfl
  | succ n ih =>
      intro l hl
      cases hp : popFirst now l with
      | none =>
          have hall := (popFirst_eq_none now l).mp hp
          have hfe : l.filter (fun j => isAvailable now j) = [] :=
            List.filter_eq_nil_iff.mpr
              (fun a ha => by rw [hall a ha]; exact Bool.false_ne_true)
          simp [popAllListFuel, hp, hfe]
      | some pr =>
          obtain ⟨j, rest⟩ := pr
          obtain ⟨hav, hfil, hlen⟩ := popFirst_spec now hp
          have hrest : rest.length ≤ n := by omega
          simp [popAllListFuel, hp, ih rest hrest, hfil]

theorem popAllList_eq_filter (now : Int) (l : List Job) :
    popAllList now l = l.filter (fun j => isAvailable now j) :=
  popAllListFuel_filter now l.length l le_rfl

/-! ### C6 — FIFO among ready jobs on the memory driver -/

/-- C6: on the memory driver, if job A sits ahead of job B in a queue
list (Push appends, so the list order is push order) and both are
available at the fixed instant of the Pop calls, then the successive
Pop results return A strictly before B, regardless of the delayed jobs
interleaved around them. -/
theorem c6_fifo (now : Int) (l1 l2 l3 : List Job) (A B : Job)
    (hA : isAvailable now A = true) (hB : isAvailable now B = true) :
    InOrder A B (popAllList now (l1 ++ A :: l2 ++ B :: l3)) := by
  refine ⟨l1.filter (fun j => isAvailable now j),
    l2.filter (fun j => isAvailable now j),
    l3.filter (fun j => isAvailable now j), ?_⟩
  rw [popAllList_eq_filter]
  simp [List.filter_append, List.filter_cons, hA, hB]

/-- C6 (witness): draining a queue holding `baseJob`, a delayed job,
then `jobB`, at instant 5, yields `baseJob` before `jobB`. -/
theorem c6_witness :
    isAvailable 5 baseJob = true ∧ isAvailable 5 jobB = true ∧
    InOrder baseJob jobB (popAllList 5 ([] ++ baseJob :: [delayedJob] ++ jobB :: [])) :=
  ⟨rfl, rfl, c6_fifo 5 [] [delayedJob] [] baseJob jobB rfl rfl⟩

/-! ### C7 — memory Pop returns queue-empty exactly when nothing is ready -/

/-- C7: memory `Pop` returns the distinguished queue-empty error
exactly when the queue holds no job with `available_at ≤ now` (absent,
empty, or all delayed), and any job it does return is available. -/
theorem c7_pop_empty_iff (now : Int) (st : MemDriver) (q : String) :
    (memPop now st q = .error .queueEmpty ↔
      ∀ j ∈ (alookup st.queues q).getD [], isAvailable now j = false) ∧
    (∀ j st', memPop now st q = .ok (j, st') → isAvailable now j = true) := by
  constructor
  · cases hq : alookup st.queues q with
    | none => simp [memPop, hq]
    | some jobs =>
        by_cases he : jobs.isEmpty
        · have hnil : jobs = [] := by simpa [List.isEmpty_iff] using he
          subst hnil
          simp [memPop, hq]
        · cases hp : popFirst now jobs with
          | none =>
              have hall := (popFirst_eq_none now jobs).mp hp
              exact iff_of_true (by simp [memPop, hq, he, hp]) (by simpa using hall)
          | some pr =>
              obtain ⟨j, rest⟩ := pr
              obtain ⟨hav, hfil, _⟩ := popFirst_spec now hp
              have hmem : j ∈ jobs := by
                have hjf : j ∈ jobs.filter (fun x => isAvailable now x) := by
                  rw [hfil]; exact List.mem_cons_self _ _
                exact List.mem_of_mem_filter hjf
              refine iff_of_false (by simp [memPop, hq, he, hp]) ?_
              intro hall
              exact absurd hav (by simp [hall j hmem])
  · intro j st' h
    unfold memPop at h
    split at h
    · cases h
    · rename_i jobs hq
      split at h
      · cases h
      · split at h
        · cases h
        · rename_i pr k rest hp
          obtain ⟨h1, -⟩ := Prod.mk.injEq .. ▸ Except.ok.injEq .. ▸ h
          subst h1
          exact (popFirst_spec now hp).1

/-- C7 (witness): an empty driver yields queue-empty, and a returned
job is available. -/
theorem c7_witness :
    memPop 5 memEmpty "default" = .error .queueEmpty ∧
    isAvailable 5 baseJob = true :=
  ⟨(c7_pop_empty_iff 5 memEmpty "default").1.mpr (by simp [memEmpty, alookup]),
   (c7_pop_empty_iff 5 st5 "default").2 baseJob ⟨[("default", [])], []⟩ rfl⟩

/-! ### Association-list and counting lemmas (C3, C5) -/

theorem alookup_aset_self (k : String) (v : α) : ∀ l : List (String × α),
    alookup (aset l k v) k = some v := by
  intro l
  induction l with
  | nil => simp [aset, alookup]
  | cons p rest ih =>
      by_cases hp : p.1 = k
      · simp [aset, hp, alookup]
      · simp only [aset]
        rw [if_neg ?_]
        · simp only [alookup, List.find?] at ih ⊢
          simp [hp, ih]
        · exact hp

theorem alookup_aset_ne (k : String) (v : α) (q : String) (hq : q ≠ k) :
    ∀ l : List (String × α), alookup (aset l k v) q = alookup l q := by
  intro l
  induction l with
  | nil => simp [aset, alookup, List.find?, Ne.symm hq]
  | cons p rest ih =>
      by_cases hp : p.1 = k
      · subst hp
        simp [aset, alookup, List.find?, Ne.symm hq]
      · simp only [aset, if_neg hp]
        simp only [alookup, List.find?] at ih ⊢
        by_cases hpq : p.1 = q <;> simp [hpq, ih]

theorem removeById_none (jid : String) : ∀ l : List Job,
    removeById jid l = none ↔ countById jid l = 0 := by
  intro l
  induction l with
  | nil => simp [removeById, countById]
  | cons j rest ih =>
      by_cases hj : j.id = jid
      · simp [removeById, hj, countById, List.countP_cons]
      · simp only [removeById, if_neg hj, Option.map_eq_none]
        simp only [countById, List.countP_cons] at ih ⊢
        simp only [hj] at ih ⊢
        simpa using ih

theorem removeById_some (jid : String) : ∀ (l l' : List Job),
    removeById jid l = some l' → countById jid l = countById jid l' + 1 := by
  intro l
  induction l with
  | nil => intro l' h; simp [removeById] at h
  | cons j rest ih =>
      intro l' h
      by_cases hj : j.id = jid
      · rw [removeById, if_pos hj] at h
        obtain rfl := Option.some.injEq .. ▸ h
        simp [countById, List.countP_cons, hj]
      · rw [removeById, if_neg hj] at h
        cases hrec : removeById jid rest with
        | none => rw [hrec] at h; cases h
        | some rest' =>
            rw [hrec] at h
            obtain rfl := Option.some.injEq .. ▸ h
            have hrec2 := ih rest' hrec
            simp [countById, List.countP_cons, hj] at hrec2 ⊢
            omega

theorem deleteFromQueues_none (jid : String) : ∀ qs : List (String × List Job),
    deleteFromQueues jid qs = none ↔ countQ jid qs = 0 := by
  intro qs
  induction qs with
  | nil => simp [deleteFromQueues, countQ]
  | cons p rest ih =>
      obtain ⟨q, jobs⟩ := p
      cases hr : removeById jid jobs with
      | some jobs' =>
          have := removeById_some jid jobs jobs' hr
          simp [deleteFromQueues, hr, countQ, this]
      | none =>
          have h0 := (removeById_none jid jobs).mp hr
          simp only [deleteFromQueues, hr, Option.map_eq_none]
          simp only [countQ, List.map_cons, List.sum_cons] at ih ⊢
          simp [h0, ih]

theorem deleteFromQueues_some (jid : String) : ∀ (qs qs' : List (String × List Job)),
    deleteFromQueues jid qs = some qs' → countQ jid qs = countQ jid qs' + 1 := by
  intro qs
  induction qs with
  | nil => intro qs' h; simp [deleteFromQueues] at h
  | cons p rest ih =>
      intro qs' h
      obtain ⟨q, jobs⟩ := p
      cases hr : removeById jid jobs with
      | some jobs' =>
          rw [deleteFromQueues, hr] at h
          obtain rfl := Option.some.injEq .. ▸ h
          have := removeById_some jid jobs jobs' hr
          simp only [countQ, List.map_cons, List.sum_cons]
          omega
      | none =>
          rw [deleteFromQueues, hr] at h
          cases hrec : deleteFromQueues jid rest with
          | none => rw [hrec] at h; cases h
          | some rest' =>
              rw [hrec] at h
              obtain rfl := Option.some.injEq .. ▸ h
              have h0 := (removeById_none jid jobs).mp hr
              have hrec2 := ih rest' hrec
              simp only [countQ, List.map_cons, List.sum_cons]
              simp only [countQ] at hrec2
              omega

theorem alookup_isSome_iff_countKey (k : String) : ∀ l : List (String × Job),
    (alookup l k).isSome = true ↔ countKey k l ≠ 0 := by
  intro l
  induction l with
  | nil => simp [alookup, countKey]
  | cons p rest ih =>
      by_cases hp : p.1 = k
      · simp [alookup, List.find?, hp, countKey, List.countP_cons]
      · simp only [alookup, List.find?] at ih ⊢
        simp only [countKey, List.countP_cons] at ih ⊢
        simp [hp, ih]

theorem countKey_aremove (k : String) : ∀ l : List (String × Job),
    countKey k l = 1 → countKey k (aremove l k) = 0 := by
  intro l
  induction l with
  | nil => intro h; simp [countKey] at h
  | cons p rest ih =>
      intro h
      by_cases hp : p.1 = k
      · rw [aremove, if_pos hp]
        simp [countKey, List.countP_cons, hp] at h
        simpa [countKey] using h
      · rw [aremove, if_neg hp]
        have hcons : ∀ tail : List (String × Job), countKey k (p :: tail) = countKey k tail := by
          intro tail
          simp [countKey, List.countP_cons, hp]
        rw [hcons] at h
        rw [hcons]
        exact ih h

/-! ### C5 — Delete idempotence -/

/-- C5 (counterexample): on the memory driver a second `Delete` of the
same id does not succeed: after deleting `baseJob` the second call
returns the job-not-found error. -/
theorem c5_counterexample :
    memDelete st5 "j1" = .ok ⟨[("default", [])], []⟩ ∧
    memDelete ⟨[("default", [])], []⟩ "j1" = .error .jobNotFound :=
  ⟨rfl, rfl⟩

/-- C5 (amended): the redis driver's `Delete` is a no-op that always
returns nil, so calling it twice succeeds both times.  The memory
driver's `Delete` succeeds exactly when a job with the id is present;
after a successful delete of the only job with that id, a second
`Delete` returns the job-not-found error. -/
theorem c5_delete (rst : RedisState) (st : MemDriver) (jid : String) :
    redisDelete rst jid = .ok rst ∧
    (isOkE (memDelete st jid) = true ↔ 0 < memCount jid st) ∧
    (memCount jid st = 1 →
      isOkE (memDelete st jid) = true ∧
      ∀ st', memDelete st jid = .ok st' →
        memDelete st' jid = .error .jobNotFound) := by
  refine ⟨rfl, ?_, ?_⟩
  · cases hd : deleteFromQueues jid st.queues with
    | some qs' =>
        have := deleteFromQueues_some jid st.queues qs' hd
        refine iff_of_true ?_ ?_
        · simp [memDelete, hd, isOkE]
        · simp only [memCount]; omega
    | none =>
        have h0 := (deleteFromQueues_none jid st.queues).mp hd
        by_cases hf : (alookup st.failed jid).isSome = true
        · have := (alookup_isSome_iff_countKey jid st.failed).mp hf
          refine iff_of_true ?_ ?_
          · simp [memDelete, hd, hf, isOkE]
          · simp only [memCount]; omega
        · have hz : countKey jid st.failed = 0 := by
            by_contra hne
            exact hf ((alookup_isSome_iff_countKey jid st.failed).mpr hne)
          refine iff_of_false ?_ ?_
          · simp [memDelete, hd, hf, isOkE]
          · simp only [memCount]; omega
  · intro hone
    cases hd : deleteFromQueues jid st.queues with
    | some qs' =>
        have hcnt := deleteFromQueues_some jid st.queues qs' hd
        have hq0 : countQ jid qs' = 0 := by simp only [memCount] at hone; omega
        have hk0 : countKey jid st.failed = 0 := by simp only [memCount] at hone; omega
        constructor
        · simp [memDelete, hd, isOkE]
        · intro st' hst'
          rw [memDelete, hd] at hst'
          obtain rfl := Except.ok.injEq .. ▸ hst'
          have hd2 : deleteFromQueues jid qs' = none :=
            (deleteFromQueues_none jid qs').mpr hq0
          have hf2 : (alookup st.failed jid).isSome ≠ true := by
            intro hf
            exact absurd ((alookup_isSome_iff_countKey jid st.failed).mp hf) (by omega)
          simp [memDelete, hd2, hf2]
    | none =>
        have h0 := (deleteFromQueues_none jid st.queues).mp hd
        have hk1 : countKey jid st.failed = 1 := by simp only [memCount] at hone; omega
        have hf : (alookup st.failed jid).isSome = true :=
          (alookup_isSome_iff_countKey jid st.failed).mpr (by omega)
        constructor
        · simp [memDelete, hd, hf, isOkE]
        · intro st' hst'
          rw [memDelete, hd] at hst'
          rw [if_pos hf] at hst'
          obtain rfl := Except.ok.injEq .. ▸ hst'
          have hd2 : deleteFromQueues jid st.queues = none := hd
          have hk2 : countKey jid (aremove st.failed jid) = 0 :=
            countKey_aremove jid st.failed hk1
          have hf2 : (alookup (aremove st.failed jid) jid).isSome ≠ true := by
            intro hfx
            exact absurd ((alookup_isSome_iff_countKey jid (aremove st.failed jid)).mp hfx)
              (by omega)
          simp [memDelete, hd2, hf2]

/-- C5 (witness): the amended theorem at a driver holding exactly one
job with id `"j1"`, plus the redis no-op. -/
theorem c5_witness :
    redisDelete redisEmpty "j1" = .ok redisEmpty ∧
    memCount "j1" st5 = 1 ∧
    isOkE (memDelete st5 "j1") = true ∧
    memDelete ⟨[("default", [])], []⟩ "j1" = .error .jobNotFound :=
  ⟨(c5_delete redisEmpty st5 "j1").1, rfl,
   ((c5_delete redisEmpty st5 "j1").2.2 rfl).1,
   ((c5_delete redisEmpty st5 "j1").2.2 rfl).2 ⟨[("default", [])], []⟩ rfl⟩

/-! ### C3 — Retry resets failed_at and error -/

/-- C3 (counterexample): on the redis driver, `Retry` is `Push` of the
job unchanged — a job that enters retry with `failed_at` and `error`
set is stored with them still set, contradicting the claim that both
drivers clear them. -/
theorem c3_counterexample :
    alookup (redisRetry 5 redisEmpty failedJob3).queues "default" = some [failedJob3] ∧
    failedJob3.failedAt = some 7 ∧ failedJob3.error = "boom" :=
  ⟨rfl, rfl, rfl⟩

/-- C3 (amended): the memory driver's `Retry` clears `failed_at` and
`error`, leaves every other field unchanged, and appends the job to the
tail of its queue's active list, leaving other queues and the failed
sink untouched.  The redis driver's `Retry` is exactly `Push` of the
unmodified job: when the job is available with no delay it is appended
to the active list as-is (fields preserved). -/
theorem c3_retry (st : MemDriver) (rst : RedisState) (now : Int) (j : Job) :
    (alookup (memRetry st j).queues j.queue =
        some (((alookup st.queues j.queue).getD []) ++
          [{ j with failedAt := none, error := "" }]) ∧
      (∀ q, q ≠ j.queue → alookup (memRetry st j).queues q = alookup st.queues q) ∧
      (memRetry st j).failed = st.failed) ∧
    (redisRetry now rst j = redisPush now rst j ∧
      (j.delay ≤ 0 → isAvailable now j = true →
        alookup (redisRetry now rst j).queues j.queue =
          some (((alookup rst.queues j.queue).getD []) ++ [j]))) := by
  refine ⟨⟨?_, ?_, rfl⟩, rfl, ?_⟩
  · exact alookup_aset_self _ _ _
  · intro q hq
    exact alookup_aset_ne _ _ q hq _
  · intro hdelay havail
    have hcond : (decide (j.delay > 0) || !isAvailable now j) = false := by
      simp [havail, decide_eq_false_iff_not, not_lt.mpr hdelay]
    rw [redisRetry, redisPush, if_neg (by simp [hcond])]
    exact alookup_aset_self _ _ _

/-- C3 (witness): the amended theorem at `failedJob3` on empty
drivers. -/
theorem c3_witness :
    (failedJob3.delay ≤ 0 ∧ isAvailable 5 failedJob3 = true) ∧
    alookup (redisRetry 5 redisEmpty failedJob3).queues failedJob3.queue =
      some (((alookup redisEmpty.queues failedJob3.queue).getD []) ++ [failedJob3]) ∧
    ("other" ≠ failedJob3.queue ∧
      alookup (memRetry memEmpty failedJob3).queues "other" =
        alookup memEmpty.queues "other") :=
  ⟨⟨by decide, rfl⟩,
   (c3_retry memEmpty redisEmpty 5 failedJob3).2.2 (by decide) rfl,
   ⟨by decide, (c3_retry memEmpty redisEmpty 5 failedJob3).1.2.1 "other" (by decide)⟩⟩

/-! ### JSON codec lemmas (C8) -/

theorem marshalValueList_eq_map (xs : List GoValue) :
    marshalValueList xs = xs.map marshalValue := by
  induction xs with
  | nil => rfl
  | cons x xs ih => simp [marshalValueList, ih]

theorem marshalValuePairs_eq_map (ps : List (String × GoValue)) :
    marshalValuePairs ps = ps.map (fun p => (p.1, marshalValue p.2)) := by
  induction ps with
  | nil => rfl
  | cons p ps ih => simp [marshalValuePairs, ih]

theorem unmarshalValueList_eq_map (xs : List JValue) :
    unmarshalValueList xs = xs.map unmarshalValue := by
  induction xs with
  | nil => rfl
  | cons x xs ih => simp [unmarshalValueList, ih]

theorem unmarshalValuePairs_eq_map (ps : List (String × JValue)) :
    unmarshalValuePairs ps = ps.map (fun p => (p.1, unmarshalValue p.2)) := by
  induction ps with
  | nil => rfl
  | cons p ps ih => simp [unmarshalValuePairs, ih]

/-- Decoding is a left inverse of encoding on the JSON-generic Go
values: this is the value-level round trip under `interface\x7b\x7d`. -/
theorem unmarshal_marshal {g : GoValue} (h : Generic g) :
    unmarshalValue (marshalValue g) = g := by
  induction h with
  | null => rfl
  | bool b => rfl
  | num q => rfl
  | str s => rfl
  | arr xs h ih =>
      simp only [marshalValue, unmarshalValue, marshalValueList_eq_map,
        unmarshalValueList_eq_map, List.map_map]
      have h2 : xs.map (unmarshalValue ∘ marshalValue) = xs.map id :=
        List.map_congr_left (fun a ha => ih a ha)
      rw [h2, List.map_id]
  | obj kvs hch hg ih =>
      simp only [marshalValue, unmarshalValue, unmarshalValuePairs_eq_map]
      have hsorted : (marshalValuePairs kvs).Sorted keyLe := by
        haveI : IsTrans (String × GoValue) (fun a b => a.1 < b.1) :=
          ⟨fun _ _ _ h1 h2 => lt_trans h1 h2⟩
        have hpair : kvs.Pairwise (fun a b => a.1 < b.1) :=
          List.chain'_iff_pairwise.mp hch
        rw [marshalValuePairs_eq_map]
        exact List.Pairwise.map _ (fun {a b} (hab : a.1 < b.1) => le_of_lt hab) hpair
      rw [List.Sorted.insertionSort_eq hsorted, marshalValuePairs_eq_map, List.map_map]
      have h2 : kvs.map ((fun p : String × JValue => (p.1, unmarshalValue p.2)) ∘
          (fun p : String × GoValue => (p.1, marshalValue p.2))) = kvs.map id := by
        apply List.map_congr_left
        intro p hpmem
        simp [ih p hpmem]
      rw [h2, List.map_id]

/-- Round trip of a canonical non-empty metadata map through the sorted
object encoding. -/
theorem pairsRoundtrip (kvs : List (String × GoValue))
    (hch : List.Chain' (fun a b : String × GoValue => a.1 < b.1) kvs)
    (hg : ∀ p ∈ kvs, Generic p.2) :
    unmarshalValuePairs ((marshalValuePairs kvs).insertionSort keyLe) = kvs := by
  have hsorted : (marshalValuePairs kvs).Sorted keyLe := by
    haveI : IsTrans (String × GoValue) (fun a b => a.1 < b.1) :=
      ⟨fun _ _ _ h1 h2 => lt_trans h1 h2⟩
    have hpair : kvs.Pairwise (fun a b => a.1 < b.1) :=
      List.chain'_iff_pairwise.mp hch
    rw [marshalValuePairs_eq_map]
    exact List.Pairwise.map _ (fun {a b} (hab : a.1 < b.1) => le_of_lt hab) hpair
  rw [List.Sorted.insertionSort_eq hsorted, marshalValuePairs_eq_map,
    unmarshalValuePairs_eq_map, List.map_map]
  have h2 : kvs.map ((fun p : String × JValue => (p.1, unmarshalValue p.2)) ∘
      (fun p : String × GoValue => (p.1, marshalValue p.2))) = kvs.map id := by
    apply List.map_congr_left
    intro p hpmem
    simp [unmarshal_marshal (hg p hpmem)]
  rw [h2, List.map_id]

theorem jlookup_nil (k : String) : jlookup [] k = none := rfl

theorem jlookup_cons (k' : String) (v : JValue) (rest : List (String × JValue)) (k : String) :
    jlookup ((k', v) :: rest) k = if k' = k then some v else jlookup rest k := by
  by_cases h : k' = k <;> simp [jlookup, List.find?, h]

theorem jnumAsInt_intCast (n : Int) : jnumAsInt (.num (n : ℚ)) = some n := by
  simp [jnumAsInt, Rat.den_intCast, Rat.num_intCast]

theorem marshalValue_obj (kvs : List (String × GoValue)) :
    marshalValue (.obj kvs) = .obj ((marshalValuePairs kvs).insertionSort keyLe) := rfl

/-! ### C8 — Job wire round trip -/

/-- C8 (counterexample): a job carrying a non-nil empty metadata map —
exactly what `NewJob` creates — does not survive the round trip: the
`omitempty` tag drops the empty map on encode and decoding yields a nil
map. -/
theorem c8_counterexample : unmarshalJob (marshalJob cxJob8) ≠ some cxJob8 := by
  intro h
  have h3 : (some (none : Option (List (String × GoValue)))) =
      some (some ([] : List (String × GoValue))) := by
    calc (some (none : Option (List (String × GoValue))))
        = (unmarshalJob (marshalJob cxJob8)).map Job.metadata := rfl
      _ = (some cxJob8).map Job.metadata := by rw [h]
      _ = some (some []) := rfl
  simp at h3

/-- C8 (amended): `unmarshal(marshal(J)) == J` holds for every Job
whose payload is a JSON-generic value (in the image of decoding: no Go
ints, maps canonical) and whose metadata map is nil or non-empty and
JSON-generic — for every combination of set and unset optional
timestamps and error strings.  A non-nil empty metadata map and
Go-typed payload values (e.g. `int`) are not recovered exactly. -/
theorem c8_roundtrip (j : Job) (hp : Generic j.payload) (hm : MetaOk j.metadata) :
    unmarshalJob (marshalJob j) = some j := by
  obtain ⟨idv, nmv, qnv, payload, att, maxAtt, tmo, dly, avail, created,
    updated, started, completed, failedT, errMsg, meta⟩ := j
  simp only at hp hm
  have hpay := unmarshal_marshal hp
  rcases meta with _ | kvs
  · by_cases herr : errMsg = "" <;>
      rcases started with _ | ts <;>
      rcases completed with _ | tc <;>
      rcases failedT with _ | tf <;>
      simp [marshalJob, marshalFields, unmarshalJob, optTimeField,
        jgetStr, jgetInt, jgetOptTime, jgetMeta, jgetPayload,
        jlookup_cons, jlookup_nil, jnumAsInt_intCast, hpay, herr,
        Option.bind]
  · obtain ⟨hne, hch, hg⟩ := hm
    have hKe : kvs.isEmpty = false := by
      cases kvs with
      | nil => exact absurd rfl hne
      | cons a b => rfl
    have hmr := pairsRoundtrip kvs hch hg
    by_cases herr : errMsg = "" <;>
      rcases started with _ | ts <;>
      rcases completed with _ | tc <;>
      rcases failedT with _ | tf <;>
      simp [marshalJob, marshalFields, unmarshalJob, optTimeField,
        jgetStr, jgetInt, jgetOptTime, jgetMeta, jgetPayload,
        jlookup_cons, jlookup_nil, jnumAsInt_intCast, hpay, herr, hKe,
        marshalValue_obj, hmr, Option.bind]

/-- C8 (witness): the amended round trip at `baseJob` (nil metadata,
null payload). -/
theorem c8_witness :
    Generic baseJob.payload ∧ MetaOk baseJob.metadata ∧
    unmarshalJob (marshalJob baseJob) = some baseJob :=
  ⟨Generic.null, trivial, c8_roundtrip baseJob Generic.null trivial⟩

end DgQueue
